import Mathlib

set_option maxRecDepth 4000

/-!
Verification of the snake game state machine from `the_snake.py`.

The game state is embedded shallowly: positions are pixel coordinates
(pairs of integers, wrapped with `%` against the screen size exactly as in
the source), the snake state is a record of the `Snake` instance
attributes, and the per-tick control flow of `main` is the `tick`
function.  The random number generator is modelled by passing in the list
of successive samples that `randint` would produce (each sample a
grid-aligned pixel position, the range of
`(randint(0, GRID_WIDTH-1)*GRID_SIZE, randint(0, GRID_HEIGHT-1)*GRID_SIZE)`).
Rendering is modelled by the list of draw requests a frame emits.
-/

/-- SCREEN_WIDTH constant from the source. -/
def SCREEN_WIDTH : Int := 640

/-- SCREEN_HEIGHT constant from the source. -/
def SCREEN_HEIGHT : Int := 480

/-- GRID_SIZE constant from the source. -/
def GRID_SIZE : Int := 20

/-- GRID_WIDTH = SCREEN_WIDTH // GRID_SIZE. -/
def GRID_WIDTH : Int := SCREEN_WIDTH / GRID_SIZE

/-- GRID_HEIGHT = SCREEN_HEIGHT // GRID_SIZE. -/
def GRID_HEIGHT : Int := SCREEN_HEIGHT / GRID_SIZE

/-- A position is a pair of pixel coordinates, as in the source. -/
abbrev Position := Int × Int

/-- Direction vector UP = (0, -1). -/
def UP : Int × Int := (0, -1)

/-- Direction vector DOWN = (0, 1). -/
def DOWN : Int × Int := (0, 1)

/-- Direction vector LEFT = (-1, 0). -/
def LEFT : Int × Int := (-1, 0)

/-- Direction vector RIGHT = (1, 0). -/
def RIGHT : Int × Int := (1, 0)

/-- The 180-degree reverse of a direction vector. -/
def opposite (d : Int × Int) : Int × Int := (-d.1, -d.2)

/-- A colour, as an RGB triple. -/
abbrev Color := Nat × Nat × Nat

/-- BOARD_BACKGROUND_COLOR from the source. -/
def BOARD_BACKGROUND_COLOR : Color := (0, 0, 0)

/-- BORDER_COLOR from the source. -/
def BORDER_COLOR : Color := (93, 216, 228)

/-- APPLE_COLOR from the source. -/
def APPLE_COLOR : Color := (255, 0, 0)

/-- SNAKE_COLOR from the source. -/
def SNAKE_COLOR : Color := (0, 255, 0)

/-- The mutable attributes of the `Snake` instance: `positions` (head
first), `direction`, `next_direction`, `last` (the tail cell popped by the
latest `move`, if any) and the `grew` flag. -/
structure SnakeState where
  positions : List Position
  direction : Int × Int
  next_direction : Option (Int × Int)
  last : Option Position
  grew : Bool
deriving DecidableEq, Repr

/-- The state installed by `Snake.reset`: a single cell at the screen
centre, direction RIGHT, no pending direction, no popped tail, no growth. -/
def resetState : SnakeState :=
  { positions := [(SCREEN_WIDTH / 2, SCREEN_HEIGHT / 2)]
    direction := RIGHT
    next_direction := none
    last := none
    grew := false }

/-- `Snake.get_head_position`: `self.positions[0]`.  (Python would raise
on an empty list; the model returns `(0, 0)` there, a case never reached
since the body always has at least one cell.) -/
def get_head_position (s : SnakeState) : Position :=
  s.positions.headD (0, 0)

/-- `Snake.update_direction`: commit the pending direction if one is set
and clear the pending slot.  (All stored direction values are non-empty
tuples, hence truthy in Python, so `if self.next_direction` is exactly a
test against `None`.) -/
def update_direction (s : SnakeState) : SnakeState :=
  match s.next_direction with
  | some d => { s with direction := d, next_direction := none }
  | none => s

/-- The `new_head` computed by `Snake.move`: one grid step in the
current direction, wrapped with `%` at the screen bounds. -/
def new_head (s : SnakeState) : Position :=
  (((get_head_position s).1 + s.direction.1 * GRID_SIZE) % SCREEN_WIDTH,
   ((get_head_position s).2 + s.direction.2 * GRID_SIZE) % SCREEN_HEIGHT)

/-- `Snake.move`: prepend the wrapped new head; if the snake grew, keep
the tail and clear the flag, otherwise pop the tail into `last`. -/
def move (s : SnakeState) : SnakeState :=
  let ps := new_head s :: s.positions
  if s.grew then
    { s with positions := ps, last := none, grew := false }
  else
    { s with positions := ps.dropLast, last := ps.getLast? }

/-- `Snake.grow`: set the growth flag. -/
def grow (s : SnakeState) : SnakeState := { s with grew := true }

/-- `Snake.check_collision`: whether the head occurs among
`positions[1:]`. -/
def check_collision (s : SnakeState) : Bool :=
  decide (get_head_position s ∈ s.positions.tail)

/-- `Apple.randomize_position`: draw samples until one avoids `avoid`.
`samples` is the stream of values the successive `randint` draws produce;
`none` models the loop never finding a free cell within the stream. -/
def randomize_position (samples : List Position) (avoid : List Position) :
    Option Position :=
  samples.find? (fun p => decide (p ∉ avoid))

/-- The n-th cell of the grid, as a pixel position.  Enumerates the range
of `(randint(0, GRID_WIDTH-1)*GRID_SIZE, randint(0, GRID_HEIGHT-1)*GRID_SIZE)`. -/
def cellOfIndex (n : Nat) : Position :=
  (((n % GRID_WIDTH.toNat) * GRID_SIZE.toNat : Nat),
   ((n / GRID_WIDTH.toNat) * GRID_SIZE.toNat : Nat))

/-- All grid cells, as pixel positions: the sample space of a single
`randint` draw in `randomize_position`. -/
def allCells : List Position :=
  (List.range (GRID_WIDTH.toNat * GRID_HEIGHT.toNat)).map cellOfIndex

/-- The four arrow keys the source reacts to, plus any other key. -/
inductive Key where
  | up
  | down
  | left
  | right
  | other
deriving DecidableEq, Repr

/-- A pygame event: QUIT, a KEYDOWN carrying a key, or any other event. -/
inductive Event where
  | quit
  | keydown (k : Key)
  | other
deriving DecidableEq, Repr

/-- One KEYDOWN branch of `handle_keys`: store the requested direction as
pending unless the current direction is its exact opposite. -/
def handle_key (s : SnakeState) (k : Key) : SnakeState :=
  match k with
  | Key.up => if s.direction ≠ DOWN then { s with next_direction := some UP } else s
  | Key.down => if s.direction ≠ UP then { s with next_direction := some DOWN } else s
  | Key.left => if s.direction ≠ RIGHT then { s with next_direction := some LEFT } else s
  | Key.right => if s.direction ≠ LEFT then { s with next_direction := some RIGHT } else s
  | Key.other => s

/-- `handle_keys`: fold the tick's event queue; QUIT raises SystemExit,
modelled as `none` (the remaining events are never processed). -/
def handle_keys (s : SnakeState) : List Event → Option SnakeState
  | [] => some s
  | Event.quit :: _ => none
  | Event.keydown k :: rest => handle_keys (handle_key s k) rest
  | Event.other :: rest => handle_keys s rest

/-- The direction an event stores as pending, given the current committed
direction, if the event is a qualifying key event (an arrow key not
opposite to the committed direction). -/
def qualifies (dir : Int × Int) : Event → Option (Int × Int)
  | Event.keydown Key.up => if dir ≠ DOWN then some UP else none
  | Event.keydown Key.down => if dir ≠ UP then some DOWN else none
  | Event.keydown Key.left => if dir ≠ RIGHT then some LEFT else none
  | Event.keydown Key.right => if dir ≠ LEFT then some RIGHT else none
  | _ => none

/-- Last-wins accumulation of pending directions: each element of the
list overwrites the pending slot. -/
def lastWins (pending : Option (Int × Int)) : List (Int × Int) → Option (Int × Int)
  | [] => pending
  | d :: ds => lastWins (some d) ds

/-- Overwrite the pending slot with a qualifying direction, if any. -/
def applyQual (pending q : Option (Int × Int)) : Option (Int × Int) :=
  match q with
  | some d => some d
  | none => pending

/-- The apple-collision step of `main`: if the head reached the apple,
set the growth flag and relocate the apple avoiding the body. -/
def eatPhase (s : SnakeState) (apple : Position) (samples : List Position) :
    Option (SnakeState × Position) :=
  if get_head_position s = apple then
    match randomize_position samples s.positions with
    | some p => some (grow s, p)
    | none => none
  else some (s, apple)

/-- The self-collision step of `main`: on collision, reset the snake and
relocate the apple avoiding the (now single-cell) body. -/
def collisionPhase (s : SnakeState) (apple : Position) (samples : List Position) :
    Option (SnakeState × Position) :=
  if check_collision s then
    match randomize_position samples resetState.positions with
    | some p => some (resetState, p)
    | none => none
  else some (s, apple)

/-- One iteration of the `main` loop (input, direction commit, move,
apple collision, self collision).  `none` models SystemExit on QUIT or a
relocation loop that never finds a free cell. -/
def tick (s : SnakeState) (apple : Position) (events : List Event)
    (sm1 sm2 : List Position) : Option (SnakeState × Position) :=
  (handle_keys s events).bind (fun s1 =>
    (eatPhase (move (update_direction s1)) apple sm1).bind (fun r =>
      collisionPhase r.1 r.2 sm2))

/-- A draw request sent to the rendering sink: a whole-screen fill, a
filled cell rectangle, or a one-pixel cell outline. -/
inductive DrawReq where
  | fill (c : Color)
  | rect (p : Position) (c : Color)
  | rectOutline (p : Position) (c : Color)
deriving DecidableEq, Repr

/-- `GameObject.draw_cell`: a filled rectangle plus a border outline. -/
def draw_cell (p : Position) (c : Color) : List DrawReq :=
  [DrawReq.rect p c, DrawReq.rectOutline p BORDER_COLOR]

/-- `Apple.draw`. -/
def apple_draw (a : Position) : List DrawReq :=
  draw_cell a APPLE_COLOR

/-- `Snake.draw`: cells of `positions[:-1]`, then the head, then the
erase of the popped tail cell (when one was popped and the snake did not
grow). -/
def snake_draw (s : SnakeState) : List DrawReq :=
  s.positions.dropLast.flatMap (fun p => draw_cell p SNAKE_COLOR)
    ++ [DrawReq.rect (get_head_position s) SNAKE_COLOR,
        DrawReq.rectOutline (get_head_position s) BORDER_COLOR]
    ++ (match s.last, s.grew with
        | some l, false => [DrawReq.rect l BOARD_BACKGROUND_COLOR]
        | _, _ => [])

/-- The draw requests of one frame of `main`: background fill, apple,
snake. -/
def renderFrame (s : SnakeState) (a : Position) : List DrawReq :=
  DrawReq.fill BOARD_BACKGROUND_COLOR :: (apple_draw a ++ snake_draw s)

/-- A pixel position on the grid: both coordinates multiples of
GRID_SIZE and inside the screen rectangle. -/
def Aligned (p : Position) : Prop :=
  p.1 % GRID_SIZE = 0 ∧ 0 ≤ p.1 ∧ p.1 < SCREEN_WIDTH ∧
  p.2 % GRID_SIZE = 0 ∧ 0 ≤ p.2 ∧ p.2 < SCREEN_HEIGHT

instance (p : Position) : Decidable (Aligned p) := by
  unfold Aligned; infer_instance

/-- The direction vector is one of the four compass directions. -/
def dirOk (d : Int × Int) : Prop :=
  d = UP ∨ d = DOWN ∨ d = LEFT ∨ d = RIGHT

instance (d : Int × Int) : Decidable (dirOk d) := by
  unfold dirOk; infer_instance

/-- States of the game reachable by `main`: the initial snake with an
apple placed avoiding it, closed under ticks whose random samples come
from the grid (the range of `randint`). -/
inductive Reachable : SnakeState × Position → Prop where
  | init (samples : List Position) (a : Position)
      (hs : ∀ c ∈ samples, c ∈ allCells)
      (ha : randomize_position samples resetState.positions = some a) :
      Reachable (resetState, a)
  | step (p : SnakeState × Position) (events : List Event)
      (sm1 sm2 : List Position) (p' : SnakeState × Position)
      (hp : Reachable p)
      (h1 : ∀ c ∈ sm1, c ∈ allCells)
      (h2 : ∀ c ∈ sm2, c ∈ allCells)
      (ht : tick p.1 p.2 events sm1 sm2 = some p') :
      Reachable p'

/-! ## Basic facts about the grid and the sample space -/

lemma grid_width_toNat : GRID_WIDTH.toNat = 32 := rfl

lemma grid_height_toNat : GRID_HEIGHT.toNat = 24 := rfl

lemma grid_size_toNat : GRID_SIZE.toNat = 20 := rfl

lemma allCells_length : allCells.length = 768 := by
  simp [allCells, grid_width_toNat, grid_height_toNat]

lemma cellOfIndex_inj : Function.Injective cellOfIndex := by
  intro m n h
  simp only [cellOfIndex, grid_width_toNat, grid_size_toNat, Prod.mk.injEq,
    Nat.cast_inj] at h
  obtain ⟨h1, h2⟩ := h
  omega

lemma allCells_nodup : allCells.Nodup :=
  List.Nodup.map cellOfIndex_inj (List.nodup_range _)

lemma aligned_cellOfIndex (n : Nat) (hn : n < 768) : Aligned (cellOfIndex n) := by
  have hx : n % 32 * 20 < 640 := by omega
  have hy : n / 32 * 20 < 480 := by omega
  refine ⟨?_, ?_, ?_, ?_, ?_, ?_⟩ <;>
    simp only [cellOfIndex, grid_width_toNat, grid_size_toNat, GRID_SIZE,
      SCREEN_WIDTH, SCREEN_HEIGHT]
  · exact Int.emod_eq_zero_of_dvd (by exact_mod_cast dvd_mul_left 20 (n % 32))
  · exact Int.natCast_nonneg _
  · exact_mod_cast hx
  · exact Int.emod_eq_zero_of_dvd (by exact_mod_cast dvd_mul_left 20 (n / 32))
  · exact Int.natCast_nonneg _
  · exact_mod_cast hy

lemma aligned_of_mem_allCells {p : Position} (hp : p ∈ allCells) : Aligned p := by
  simp only [allCells, List.mem_map, List.mem_range] at hp
  obtain ⟨n, hn, rfl⟩ := hp
  exact aligned_cellOfIndex n (by simpa [grid_width_toNat, grid_height_toNat] using hn)

lemma zero_mem_allCells : ((0 : Int), (0 : Int)) ∈ allCells := by
  have h0 : cellOfIndex 0 = ((0 : Int), (0 : Int)) := by
    simp [cellOfIndex]
  have : cellOfIndex 0 ∈ allCells :=
    List.mem_map_of_mem _ (List.mem_range.2 (by simp [grid_width_toNat, grid_height_toNat]))
  rwa [h0] at this

/-! ## Facts about `randomize_position` -/

lemma randomize_position_not_mem {samples avoid : List Position} {p : Position}
    (h : randomize_position samples avoid = some p) : p ∉ avoid := by
  have := List.find?_some h
  simpa using this

lemma randomize_position_mem {samples avoid : List Position} {p : Position}
    (h : randomize_position samples avoid = some p) : p ∈ samples :=
  List.mem_of_find?_eq_some h

lemma randomize_position_isSome {samples avoid : List Position}
    (h : ∃ c ∈ samples, c ∉ avoid) :
    ∃ p, randomize_position samples avoid = some p := by
  obtain ⟨c, hcs, hca⟩ := h
  have : (randomize_position samples avoid).isSome :=
    List.find?_isSome.2 ⟨c, hcs, by simpa using hca⟩
  exact Option.isSome_iff_exists.1 this

lemma exists_free_cell {avoid : List Position} (h : avoid.length < 768) :
    ∃ c ∈ allCells, c ∉ avoid := by
  by_contra hc
  push_neg at hc
  have hsub : allCells ⊆ avoid := fun c hcc => hc c hcc
  have hle := (List.subperm_of_subset allCells_nodup hsub).length_le
  rw [allCells_length] at hle
  omega

/-! ## Facts about `move` -/

lemma move_grew (s : SnakeState) : (move s).grew = false := by
  cases h : s.grew <;> simp [move, h]

lemma move_direction (s : SnakeState) : (move s).direction = s.direction := by
  cases h : s.grew <;> simp [move, h]

lemma move_next_direction (s : SnakeState) :
    (move s).next_direction = s.next_direction := by
  cases h : s.grew <;> simp [move, h]

lemma move_positions_grew (s : SnakeState) (h : s.grew = true) :
    (move s).positions = new_head s :: s.positions := by
  simp [move, h]

lemma move_positions_not_grew (s : SnakeState) (h : s.grew = false) :
    (move s).positions = (new_head s :: s.positions).dropLast := by
  simp [move, h]

lemma move_last_not_grew (s : SnakeState) (h : s.grew = false) :
    (move s).last = (new_head s :: s.positions).getLast? := by
  simp [move, h]

lemma move_length (s : SnakeState) :
    (move s).positions.length =
      if s.grew then s.positions.length + 1 else s.positions.length := by
  cases h : s.grew <;>
    simp [move, h, List.length_dropLast]

lemma get_head_move (s : SnakeState) (hne : s.positions ≠ []) :
    get_head_position (move s) = new_head s := by
  cases hps : s.positions with
  | nil => exact absurd hps hne
  | cons a t =>
      cases h : s.grew <;>
        simp [move, h, get_head_position, hps, List.dropLast]

lemma move_mem {s : SnakeState} {p : Position}
    (hp : p ∈ (move s).positions) : p = new_head s ∨ p ∈ s.positions := by
  cases h : s.grew with
  | true =>
      rw [move_positions_grew s h] at hp
      simpa using hp
  | false =>
      rw [move_positions_not_grew s h] at hp
      have := List.dropLast_sublist (new_head s :: s.positions)
      have hp' := this.subset hp
      simpa using hp'

/-! ## Alignment is preserved by the wrap arithmetic -/

lemma aligned_head {s : SnakeState} (h : ∀ p ∈ s.positions, Aligned p) :
    Aligned (get_head_position s) := by
  cases hps : s.positions with
  | nil =>
      refine ⟨?_, ?_, ?_, ?_, ?_, ?_⟩ <;>
        simp [get_head_position, hps, GRID_SIZE, SCREEN_WIDTH, SCREEN_HEIGHT]
  | cons a t =>
      have : a ∈ s.positions := by simp [hps]
      simpa [get_head_position, hps] using h a this

lemma aligned_wrap {h d m w : Int} (hm : h % m = 0) (hmw : m ∣ w) (hw : 0 < w) :
    (h + d * m) % w % m = 0 ∧ 0 ≤ (h + d * m) % w ∧ (h + d * m) % w < w := by
  refine ⟨?_, Int.emod_nonneg _ (by omega), Int.emod_lt_of_pos _ hw⟩
  rw [Int.emod_emod_of_dvd _ hmw]
  have h1 : m ∣ h := Int.dvd_of_emod_eq_zero hm
  have h2 : m ∣ d * m := dvd_mul_left m d
  exact Int.emod_eq_zero_of_dvd (dvd_add h1 h2)

lemma aligned_new_head {s : SnakeState}
    (h : Aligned (get_head_position s)) : Aligned (new_head s) := by
  obtain ⟨hx0, _, _, hy0, _, _⟩ := h
  have hx := aligned_wrap (d := s.direction.1) (w := SCREEN_WIDTH) hx0
    (by norm_num [GRID_SIZE, SCREEN_WIDTH]) (by norm_num [SCREEN_WIDTH])
  have hy := aligned_wrap (d := s.direction.2) (w := SCREEN_HEIGHT) hy0
    (by norm_num [GRID_SIZE, SCREEN_HEIGHT]) (by norm_num [SCREEN_HEIGHT])
  exact ⟨hx.1, hx.2.1, hx.2.2, hy.1, hy.2.1, hy.2.2⟩

/-! ## Facts about the input handling -/

lemma handle_key_positions (s : SnakeState) (k : Key) :
    (handle_key s k).positions = s.positions := by
  cases k <;> simp [handle_key] <;> split <;> simp

lemma handle_key_direction (s : SnakeState) (k : Key) :
    (handle_key s k).direction = s.direction := by
  cases k <;> simp [handle_key] <;> split <;> simp

lemma handle_key_last (s : SnakeState) (k : Key) :
    (handle_key s k).last = s.last := by
  cases k <;> simp [handle_key] <;> split <;> simp

lemma handle_key_grew (s : SnakeState) (k : Key) :
    (handle_key s k).grew = s.grew := by
  cases k <;> simp [handle_key] <;> split <;> simp

lemma handle_key_next (s : SnakeState) (k : Key) :
    (handle_key s k).next_direction =
      applyQual s.next_direction (qualifies s.direction (Event.keydown k)) := by
  cases k <;> simp only [handle_key, qualifies, applyQual] <;> split <;> simp_all

lemma lastWins_append_last (p : Option (Int × Int)) (l : List (Int × Int))
    (d : Int × Int) : lastWins p (l ++ [d]) = some d := by
  induction l generalizing p with
  | nil => simp [lastWins]
  | cons a l ih => simp [lastWins, ih]

lemma lastWins_some {p : Option (Int × Int)} {l : List (Int × Int)} {d : Int × Int}
    (h : lastWins p l = some d) : p = some d ∨ d ∈ l := by
  induction l generalizing p with
  | nil => simp [lastWins] at h; simp [h]
  | cons a l ih =>
      simp only [lastWins] at h
      rcases ih h with h' | h'
      · simp at h'
        simp [h']
      · simp [h']

lemma qualifies_some {dir d : Int × Int} {e : Event}
    (h : qualifies dir e = some d) :
    dirOk d ∧ dir ≠ opposite d := by
  match e with
  | Event.quit => simp [qualifies] at h
  | Event.other => simp [qualifies] at h
  | Event.keydown Key.other => simp [qualifies] at h
  | Event.keydown Key.up =>
      by_cases hc : dir = DOWN
      · simp [qualifies, hc] at h
      · simp [qualifies, hc] at h
        subst h
        exact ⟨by simp [dirOk], by simpa [opposite, UP, DOWN] using hc⟩
  | Event.keydown Key.down =>
      by_cases hc : dir = UP
      · simp [qualifies, hc] at h
      · simp [qualifies, hc] at h
        subst h
        exact ⟨by simp [dirOk], by simpa [opposite, UP, DOWN] using hc⟩
  | Event.keydown Key.left =>
      by_cases hc : dir = RIGHT
      · simp [qualifies, hc] at h
      · simp [qualifies, hc] at h
        subst h
        exact ⟨by simp [dirOk], by simpa [opposite, LEFT, RIGHT] using hc⟩
  | Event.keydown Key.right =>
      by_cases hc : dir = LEFT
      · simp [qualifies, hc] at h
      · simp [qualifies, hc] at h
        subst h
        exact ⟨by simp [dirOk], by simpa [opposite, LEFT, RIGHT] using hc⟩

lemma handle_keys_some {events : List Event} {s s' : SnakeState}
    (hk : handle_keys s events = some s') :
    s'.positions = s.positions ∧ s'.direction = s.direction ∧
    s'.last = s.last ∧ s'.grew = s.grew ∧
    s'.next_direction =
      lastWins s.next_direction (events.filterMap (qualifies s.direction)) := by
  induction events generalizing s with
  | nil =>
      simp [handle_keys] at hk
      subst hk
      simp [lastWins]
  | cons e rest ih =>
      match e with
      | Event.quit => simp [handle_keys] at hk
      | Event.other =>
          simp only [handle_keys] at hk
          have := ih hk
          simpa [qualifies] using this
      | Event.keydown k =>
          simp only [handle_keys] at hk
          have h := ih hk
          rw [handle_key_positions, handle_key_direction, handle_key_last,
            handle_key_grew, handle_key_next] at h
          refine ⟨h.1, h.2.1, h.2.2.1, h.2.2.2.1, ?_⟩
          rw [h.2.2.2.2]
          cases hq : qualifies s.direction (Event.keydown k) with
          | none => simp [List.filterMap_cons, hq, applyQual]
          | some d => simp [List.filterMap_cons, hq, applyQual, lastWins]

lemma handle_keys_isSome {events : List Event} (s : SnakeState)
    (hq : ∀ e ∈ events, e ≠ Event.quit) :
    ∃ s', handle_keys s events = some s' := by
  induction events generalizing s with
  | nil => exact ⟨s, rfl⟩
  | cons e rest ih =>
      match e with
      | Event.quit => exact absurd rfl (hq Event.quit (by simp))
      | Event.other =>
          exact ih s (fun e he => hq e (by simp [he]))
      | Event.keydown k =>
          exact ih (handle_key s k) (fun e he => hq e (by simp [he]))

/-! ## Facts about `update_direction` and the tick phases -/

lemma update_direction_positions (s : SnakeState) :
    (update_direction s).positions = s.positions := by
  cases h : s.next_direction <;> simp [update_direction, h]

lemma update_direction_next (s : SnakeState) :
    (update_direction s).next_direction = none := by
  cases h : s.next_direction <;> simp [update_direction, h]

lemma update_direction_grew (s : SnakeState) :
    (update_direction s).grew = s.grew := by
  cases h : s.next_direction <;> simp [update_direction, h]

lemma update_direction_dir_cases (s : SnakeState) :
    (update_direction s).direction = s.direction ∨
      s.next_direction = some ((update_direction s).direction) := by
  cases h : s.next_direction <;> simp [update_direction, h]

lemma eatPhase_eq_some {s s4 : SnakeState} {apple a4 : Position}
    {sm : List Position}
    (h : eatPhase s apple sm = some (s4, a4)) :
    (get_head_position s = apple ∧ s4 = grow s ∧
      randomize_position sm s.positions = some a4) ∨
    (get_head_position s ≠ apple ∧ s4 = s ∧ a4 = apple) := by
  unfold eatPhase at h
  by_cases hh : get_head_position s = apple
  · rw [if_pos hh] at h
    cases hr : randomize_position sm s.positions with
    | none => rw [hr] at h; simp at h
    | some p =>
        rw [hr] at h
        simp only [Option.some.injEq, Prod.mk.injEq] at h
        exact Or.inl ⟨hh, h.1.symm, congrArg some h.2⟩
  · rw [if_neg hh] at h
    simp only [Option.some.injEq, Prod.mk.injEq] at h
    exact Or.inr ⟨hh, h.1.symm, h.2.symm⟩

lemma collisionPhase_eq_some {s s' : SnakeState} {apple a' : Position}
    {sm : List Position}
    (h : collisionPhase s apple sm = some (s', a')) :
    (check_collision s = true ∧ s' = resetState ∧
      randomize_position sm resetState.positions = some a') ∨
    (check_collision s = false ∧ s' = s ∧ a' = apple) := by
  unfold collisionPhase at h
  by_cases hh : check_collision s
  · rw [if_pos hh] at h
    cases hr : randomize_position sm resetState.positions with
    | none => rw [hr] at h; simp at h
    | some p =>
        rw [hr] at h
        simp only [Option.some.injEq, Prod.mk.injEq] at h
        exact Or.inl ⟨hh, h.1.symm, congrArg some h.2⟩
  · rw [if_neg hh] at h
    simp only [Option.some.injEq, Prod.mk.injEq] at h
    exact Or.inr ⟨by simpa using hh, h.1.symm, h.2.symm⟩

lemma tick_eq_some {s : SnakeState} {apple : Position} {events : List Event}
    {sm1 sm2 : List Position} {s' : SnakeState} {a' : Position}
    (h : tick s apple events sm1 sm2 = some (s', a')) :
    ∃ s1 s4 a4, handle_keys s events = some s1 ∧
      eatPhase (move (update_direction s1)) apple sm1 = some (s4, a4) ∧
      collisionPhase s4 a4 sm2 = some (s', a') := by
  unfold tick at h
  cases hk : handle_keys s events with
  | none => rw [hk] at h; simp at h
  | some s1 =>
      rw [hk, Option.some_bind] at h
      cases he : eatPhase (move (update_direction s1)) apple sm1 with
      | none => rw [he] at h; simp at h
      | some pr =>
          obtain ⟨s4, a4⟩ := pr
          rw [he, Option.some_bind] at h
          exact ⟨s1, s4, a4, rfl, he, h⟩

/-! ## The reachable-state invariant -/

/-- The invariant maintained by the game loop: non-empty body, all cells
grid-aligned, a compass direction, an empty pending slot between ticks,
and a grid-aligned apple. -/
structure GameInv (s : SnakeState) (a : Position) : Prop where
  len : 1 ≤ s.positions.length
  aligned : ∀ p ∈ s.positions, Aligned p
  dir : dirOk s.direction
  pending : s.next_direction = none
  apple : Aligned a

lemma inv_reset {a : Position} (ha : Aligned a) : GameInv resetState a := by
  refine ⟨?_, ?_, ?_, rfl, ha⟩
  · simp [resetState]
  · intro p hp
    simp only [resetState, List.mem_singleton] at hp
    subst hp
    decide
  · decide

lemma inv_step {s : SnakeState} {a : Position} {events : List Event}
    {sm1 sm2 : List Position} {s' : SnakeState} {a' : Position}
    (inv : GameInv s a)
    (hc1 : ∀ c ∈ sm1, c ∈ allCells) (hc2 : ∀ c ∈ sm2, c ∈ allCells)
    (ht : tick s a events sm1 sm2 = some (s', a')) : GameInv s' a' := by
  obtain ⟨s1, s4, a4, hk, he, hcol⟩ := tick_eq_some ht
  obtain ⟨e1, e2, _, _, e5⟩ := handle_keys_some hk
  have h2pos : (update_direction s1).positions = s.positions := by
    rw [update_direction_positions, e1]
  have h2next : (update_direction s1).next_direction = none :=
    update_direction_next s1
  have h2dir : dirOk (update_direction s1).direction := by
    rcases update_direction_dir_cases s1 with hd | hd
    · rw [hd, e2]; exact inv.dir
    · rw [e5, inv.pending] at hd
      rcases lastWins_some hd with hP | hP
      · exact absurd hP (by simp)
      · obtain ⟨e, _, hqe⟩ := List.mem_filterMap.1 hP
        exact (qualifies_some hqe).1
  have h3pos : ∀ p ∈ (move (update_direction s1)).positions, Aligned p := by
    intro p hp
    rcases move_mem hp with rfl | hp'
    · exact aligned_new_head (aligned_head (by rw [h2pos]; exact inv.aligned))
    · rw [h2pos] at hp'
      exact inv.aligned p hp'
  have h3len : 1 ≤ (move (update_direction s1)).positions.length := by
    have hl : (update_direction s1).positions.length = s.positions.length := by
      rw [h2pos]
    have := inv.len
    rw [move_length, hl]
    split <;> omega
  have h3next : (move (update_direction s1)).next_direction = none := by
    rw [move_next_direction, h2next]
  have h3dir : dirOk (move (update_direction s1)).direction := by
    rw [move_direction]; exact h2dir
  have h4 : 1 ≤ s4.positions.length ∧ (∀ p ∈ s4.positions, Aligned p) ∧
      dirOk s4.direction ∧ s4.next_direction = none ∧ Aligned a4 := by
    rcases eatPhase_eq_some he with ⟨_, rfl, hr⟩ | ⟨_, rfl, rfl⟩
    · exact ⟨by simpa [grow] using h3len, by simpa [grow] using h3pos,
        by simpa [grow] using h3dir, by simpa [grow] using h3next,
        aligned_of_mem_allCells (hc1 a4 (randomize_position_mem hr))⟩
    · exact ⟨h3len, h3pos, h3dir, h3next, inv.apple⟩
  rcases collisionPhase_eq_some hcol with ⟨_, rfl, hr2⟩ | ⟨_, rfl, rfl⟩
  · exact inv_reset (aligned_of_mem_allCells (hc2 a' (randomize_position_mem hr2)))
  · exact ⟨h4.1, h4.2.1, h4.2.2.1, h4.2.2.2.1, h4.2.2.2.2⟩

lemma reachable_inv {q : SnakeState × Position} (hr : Reachable q) :
    GameInv q.1 q.2 := by
  induction hr with
  | init samples a0 hs ha =>
      exact inv_reset (aligned_of_mem_allCells (hs a0 (randomize_position_mem ha)))
  | step p events sm1 sm2 p' hp h1 h2 ht ih =>
      obtain ⟨s', a'⟩ := p'
      exact inv_step ih h1 h2 ht

/-! ## Further helper lemmas for the claims -/

lemma wrap_cell (c d k m : Int) (hm : 0 < m) :
    (c * m + d * m) % (m * k) = ((c + d) % k) * m := by
  have h1 : c * m + d * m = m * (c + d) := by ring
  rw [h1, Int.mul_emod_mul_of_pos _ _ hm, Int.mul_comm]

lemma eatPhase_of_move_ne_reset {s2 s4 : SnakeState} {apple a4 : Position}
    {sm : List Position} (hne : s2.positions ≠ [])
    (he : eatPhase (move s2) apple sm = some (s4, a4)) : s4 ≠ resetState := by
  rcases eatPhase_eq_some he with ⟨_, rfl, _⟩ | ⟨_, rfl, _⟩
  · intro hcon
    have hg : (grow (move s2)).grew = true := rfl
    rw [hcon] at hg
    simp [resetState] at hg
  · intro hcon
    cases hg : s2.grew with
    | true =>
        have hlen := move_length s2
        rw [hg, if_pos rfl, hcon] at hlen
        simp [resetState] at hlen
        exact hne hlen
    | false =>
        have hl := move_last_not_grew s2 hg
        rw [hcon] at hl
        cases hq : (new_head s2 :: s2.positions).getLast? with
        | none =>
            rw [List.getLast?_eq_none_iff] at hq
            cases hq
        | some x =>
            rw [hq] at hl
            simp [resetState] at hl

/-- The mapping from the four arrow keys to their direction vectors, as
hard-coded in the KEYDOWN branches of `handle_keys`. -/
def keyToDir : Key → Option (Int × Int)
  | Key.up => some UP
  | Key.down => some DOWN
  | Key.left => some LEFT
  | Key.right => some RIGHT
  | Key.other => none

/-- The snake of the growth scenario: a single cell at grid cell (5, 5)
moving right. -/
def c2Start : SnakeState :=
  { positions := [(5 * GRID_SIZE, 5 * GRID_SIZE)]
    direction := RIGHT
    next_direction := none
    last := none
    grew := false }

/-- A length-2 snake (head at cell (5, 5), tail at cell (6, 5)) right
after a leftward move that popped cell (7, 5). -/
def c8State : SnakeState :=
  { positions := [(5 * GRID_SIZE, 5 * GRID_SIZE), (6 * GRID_SIZE, 5 * GRID_SIZE)]
    direction := LEFT
    next_direction := none
    last := some (7 * GRID_SIZE, 5 * GRID_SIZE)
    grew := false }

/-- A concrete reachable state for witnesses: the initial snake with the
apple at the grid origin. -/
lemma reachable_init_zero : Reachable (resetState, ((0 : Int), (0 : Int))) :=
  Reachable.init [(0, 0)] (0, 0)
    (by
      intro c hc
      simp only [List.mem_singleton] at hc
      subst hc
      exact zero_mem_allCells)
    (by decide)

/-! ## The claims -/

/-- Claim C1: advancing the body is toroidal.  For every body state whose
head sits at grid cell (cx, cy) and every committed direction (dx, dy),
the head after `move` is at cell ((cx + dx) mod GRID_WIDTH,
(cy + dy) mod GRID_HEIGHT); and on the 32x24 grid, the length-1 body
starting at cell (16, 12) moving right has head at cell (0, 12) and
length 1 after 16 advances with no growth and no direction change. -/
theorem advance_toroidal :
    (∀ (s : SnakeState) (cx cy dx dy : Int),
        s.positions ≠ [] →
        get_head_position s = (cx * GRID_SIZE, cy * GRID_SIZE) →
        s.direction = (dx, dy) →
        get_head_position (move s) =
          (((cx + dx) % GRID_WIDTH) * GRID_SIZE,
           ((cy + dy) % GRID_HEIGHT) * GRID_SIZE)) ∧
    resetState.positions = [(16 * GRID_SIZE, 12 * GRID_SIZE)] ∧
    resetState.direction = RIGHT ∧
    get_head_position (move^[16] resetState) = (0 * GRID_SIZE, 12 * GRID_SIZE) ∧
    (move^[16] resetState).positions.length = 1 := by
  refine ⟨?_, by decide, by decide, by decide, by decide⟩
  intro s cx cy dx dy hne hh hd
  rw [get_head_move s hne]
  have hW : SCREEN_WIDTH = GRID_SIZE * GRID_WIDTH := by decide
  have hH : SCREEN_HEIGHT = GRID_SIZE * GRID_HEIGHT := by decide
  have hm : (0 : Int) < GRID_SIZE := by decide
  simp only [new_head, hh, hd]
  rw [hW, hH, wrap_cell cx dx GRID_WIDTH GRID_SIZE hm,
    wrap_cell cy dy GRID_HEIGHT GRID_SIZE hm]

/-- Witness for C1 at the initial state: one advance to the right from
cell (16, 12). -/
theorem advance_toroidal_witness :
    get_head_position (move resetState) =
      (((16 + 1) % GRID_WIDTH) * GRID_SIZE, ((12 + 0) % GRID_HEIGHT) * GRID_SIZE) :=
  advance_toroidal.1 resetState 16 12 1 0 (by decide) (by decide) (by decide)

/-- Claim C2: eating food exactly once (head equals food position after
an advance, which via `eatPhase` sets the growth flag) increases the body
length by exactly 1 on the very next advance, after which the growth flag
is false again; concretely, a body at cell (5, 5) with food at cell
(6, 5) moving right becomes, after the eating advance and one more
advance, the length-2 body [(7, 5), (6, 5)] with the old tail retained. -/
theorem eat_grows_once :
    (∀ (s s4 : SnakeState) (apple a4 : Position) (sm : List Position),
        get_head_position s = apple →
        eatPhase s apple sm = some (s4, a4) →
        s4.grew = true ∧
        (move s4).positions.length = s4.positions.length + 1 ∧
        (move s4).grew = false) ∧
    get_head_position (move c2Start) = (6 * GRID_SIZE, 5 * GRID_SIZE) ∧
    (move (grow (move c2Start))).positions =
      [(7 * GRID_SIZE, 5 * GRID_SIZE), (6 * GRID_SIZE, 5 * GRID_SIZE)] ∧
    (move (grow (move c2Start))).grew = false := by
  refine ⟨?_, by decide, by decide, by decide⟩
  intro s s4 apple a4 sm hh he
  rcases eatPhase_eq_some he with ⟨_, rfl, _⟩ | ⟨hno, _, _⟩
  · refine ⟨rfl, ?_, move_grew _⟩
    have hg : (grow s).grew = true := rfl
    rw [move_length, if_pos hg]
  · exact absurd hh hno

/-- Witness for C2: the snake that just advanced onto the food at cell
(6, 5). -/
theorem eat_grows_once_witness :
    (grow (move c2Start)).grew = true ∧
    (move (grow (move c2Start))).positions.length =
      (grow (move c2Start)).positions.length + 1 ∧
    (move (grow (move c2Start))).grew = false :=
  eat_grows_once.1 (move c2Start) (grow (move c2Start))
    (6 * GRID_SIZE, 5 * GRID_SIZE) (0, 0) [(0, 0)] (by decide) (by decide)

/-- Claim C3: whenever the avoid list covers fewer cells than the grid
has (its length is below GRID_WIDTH * GRID_HEIGHT) and the random sample
stream eventually tries every grid cell, `randomize_position` terminates
with a food position outside the avoid list. -/
theorem randomize_position_avoids (samples avoid : List Position)
    (hcap : (avoid.length : Int) < GRID_WIDTH * GRID_HEIGHT)
    (hcov : ∀ c ∈ allCells, c ∈ samples) :
    ∃ p, randomize_position samples avoid = some p ∧ p ∉ avoid := by
  have hlen : avoid.length < 768 := by
    have h768 : GRID_WIDTH * GRID_HEIGHT = (768 : Int) := by decide
    rw [h768] at hcap
    exact_mod_cast hcap
  obtain ⟨c, hcA, hcav⟩ := exists_free_cell hlen
  obtain ⟨p, hp⟩ := randomize_position_isSome ⟨c, hcov c hcA, hcav⟩
  exact ⟨p, hp, randomize_position_not_mem hp⟩

/-- Witness for C3: relocating while the body occupies the screen centre. -/
theorem randomize_position_avoids_witness :
    ∃ p, randomize_position allCells [((16 * GRID_SIZE : Int), (12 * GRID_SIZE : Int))] = some p ∧
      p ∉ [((16 * GRID_SIZE : Int), (12 * GRID_SIZE : Int))] :=
  randomize_position_avoids allCells [(16 * GRID_SIZE, 12 * GRID_SIZE)]
    (by decide) (fun c hc => hc)

/-- Claim C4: within a tick, the body is reset if and only if, after the
advance and the food handling, the head cell equals some body cell at
index >= 1 (`check_collision`); the reset replaces the whole state with a
single cell at the grid centre, direction rightward, pending direction
none and growth flag false, and the food is then relocated avoiding the
single-cell body. -/
theorem tick_reset_iff_self_collision (s s1 s4 : SnakeState)
    (a a4 : Position) (events : List Event) (sm1 sm2 : List Position)
    (s' : SnakeState) (a' : Position)
    (hne : s.positions ≠ [])
    (hk : handle_keys s events = some s1)
    (he : eatPhase (move (update_direction s1)) a sm1 = some (s4, a4))
    (ht : tick s a events sm1 sm2 = some (s', a')) :
    ((s' = resetState) ↔ check_collision s4 = true) ∧
    (check_collision s4 = true →
      s'.positions = [(SCREEN_WIDTH / 2, SCREEN_HEIGHT / 2)] ∧
      s'.direction = RIGHT ∧ s'.next_direction = none ∧ s'.grew = false ∧
      a' ∉ s'.positions) ∧
    (check_collision s4 = false → s' = s4 ∧ a' = a4) := by
  unfold tick at ht
  rw [hk, Option.some_bind, he, Option.some_bind] at ht
  have hs2ne : (update_direction s1).positions ≠ [] := by
    rw [update_direction_positions, (handle_keys_some hk).1]
    exact hne
  have hns4 : s4 ≠ resetState := eatPhase_of_move_ne_reset hs2ne he
  rcases collisionPhase_eq_some ht with ⟨hcc, rfl, hr⟩ | ⟨hcc, rfl, rfl⟩
  · exact ⟨⟨fun _ => hcc, fun _ => rfl⟩,
      fun _ => ⟨rfl, rfl, rfl, rfl, randomize_position_not_mem hr⟩,
      fun hf => absurd (hcc.symm.trans hf) (by simp)⟩
  · exact ⟨⟨fun hcon => absurd hcon hns4,
        fun hcol => absurd (hcc.symm.trans hcol) (by simp)⟩,
      fun hcol => absurd (hcc.symm.trans hcol) (by simp),
      fun _ => ⟨rfl, rfl⟩⟩

/-- Witness for C4: a quiet tick from the initial state (no key events,
apple elsewhere, no collision). -/
theorem tick_reset_iff_self_collision_witness :
    ((move (update_direction resetState) = resetState) ↔
      check_collision (move (update_direction resetState)) = true) ∧
    (check_collision (move (update_direction resetState)) = true →
      (move (update_direction resetState)).positions =
        [(SCREEN_WIDTH / 2, SCREEN_HEIGHT / 2)] ∧
      (move (update_direction resetState)).direction = RIGHT ∧
      (move (update_direction resetState)).next_direction = none ∧
      (move (update_direction resetState)).grew = false ∧
      ((0 : Int), (0 : Int)) ∉ (move (update_direction resetState)).positions) ∧
    (check_collision (move (update_direction resetState)) = false →
      move (update_direction resetState) = move (update_direction resetState) ∧
      ((0 : Int), (0 : Int)) = ((0 : Int), (0 : Int))) :=
  tick_reset_iff_self_collision resetState resetState
    (move (update_direction resetState)) (0, 0) (0, 0) [] [] []
    (move (update_direction resetState)) (0, 0)
    (by decide) (by decide) (by decide) (by decide)

/-- Claim C5: a pending-direction request is a no-op when the requested
direction is the exact opposite of the current committed direction: the
state is unchanged, the pending slot (if unset) stays unset, and the next
commit keeps the current direction.  Quantifying over the key covers all
four directions. -/
theorem opposite_direction_rejected (s : SnakeState) (k : Key) (d : Int × Int)
    (hk : keyToDir k = some d)
    (hop : s.direction = opposite d)
    (hnone : s.next_direction = none) :
    handle_key s k = s ∧
    (handle_key s k).next_direction = none ∧
    (update_direction (handle_key s k)).direction = s.direction := by
  have hkey : handle_key s k = s := by
    cases k with
    | up =>
        simp only [keyToDir, Option.some.injEq] at hk
        subst hk
        simp [handle_key, hop, opposite, UP, DOWN]
    | down =>
        simp only [keyToDir, Option.some.injEq] at hk
        subst hk
        simp [handle_key, hop, opposite, UP, DOWN]
    | left =>
        simp only [keyToDir, Option.some.injEq] at hk
        subst hk
        simp [handle_key, hop, opposite, LEFT, RIGHT]
    | right =>
        simp only [keyToDir, Option.some.injEq] at hk
        subst hk
        simp [handle_key, hop, opposite, LEFT, RIGHT]
    | other => simp [keyToDir] at hk
  refine ⟨hkey, ?_, ?_⟩
  · rw [hkey, hnone]
  · rw [hkey]
    simp [update_direction, hnone]

/-- Witness for C5: a leftward key while moving right at the initial
state. -/
theorem opposite_direction_rejected_witness :
    handle_key resetState Key.left = resetState ∧
    (handle_key resetState Key.left).next_direction = none ∧
    (update_direction (handle_key resetState Key.left)).direction =
      resetState.direction :=
  opposite_direction_rejected resetState Key.left LEFT
    (by decide) (by decide) (by decide)

/-- Claim C6: for every reachable game state the body length is at least
1, and the state installed by a reset has exactly one cell, the grid
centre. -/
theorem reachable_length_pos (s : SnakeState) (a : Position)
    (hr : Reachable (s, a)) :
    1 ≤ s.positions.length ∧
    (∀ s2 : SnakeState, 1 ≤ s2.positions.length → 1 ≤ (move s2).positions.length) ∧
    (∀ s2 : SnakeState, 1 ≤ s2.positions.length → 1 ≤ (grow s2).positions.length) ∧
    resetState.positions.length = 1 ∧
    resetState.positions = [(16 * GRID_SIZE, 12 * GRID_SIZE)] ∧
    (16 * GRID_SIZE, 12 * GRID_SIZE) = ((SCREEN_WIDTH / 2 : Int), (SCREEN_HEIGHT / 2 : Int)) := by
  refine ⟨(reachable_inv hr).len, ?_, ?_, by decide, by decide, by decide⟩
  · intro s2 h2
    rw [move_length]
    split <;> omega
  · intro s2 h2
    simpa [grow] using h2

/-- Witness for C6 at the initial reachable state. -/
theorem reachable_length_pos_witness :
    1 ≤ resetState.positions.length ∧
    (∀ s2 : SnakeState, 1 ≤ s2.positions.length → 1 ≤ (move s2).positions.length) ∧
    (∀ s2 : SnakeState, 1 ≤ s2.positions.length → 1 ≤ (grow s2).positions.length) ∧
    resetState.positions.length = 1 ∧
    resetState.positions = [(16 * GRID_SIZE, 12 * GRID_SIZE)] ∧
    (16 * GRID_SIZE, 12 * GRID_SIZE) = ((SCREEN_WIDTH / 2 : Int), (SCREEN_HEIGHT / 2 : Int)) :=
  reachable_length_pos resetState (0, 0) reachable_init_zero

/-- Claim C7: during input handling the committed direction never
changes, each qualifying key event overwrites the pending direction, and
the resulting pending direction is the last qualifying event of the tick
(or the previous pending value if no event qualifies). -/
theorem last_qualifying_key_wins (s : SnakeState) (events : List Event)
    (hq : ∀ e ∈ events, e ≠ Event.quit) :
    ∃ s', handle_keys s events = some s' ∧
      s'.direction = s.direction ∧
      s'.next_direction =
        lastWins s.next_direction (events.filterMap (qualifies s.direction)) ∧
      (∀ qs d, events.filterMap (qualifies s.direction) = qs ++ [d] →
        s'.next_direction = some d) := by
  obtain ⟨s', hs'⟩ := handle_keys_isSome s hq
  obtain ⟨_, hdir, _, _, hnext⟩ := handle_keys_some hs'
  refine ⟨s', hs', hdir, hnext, ?_⟩
  intro qs d hqs
  rw [hnext, hqs, lastWins_append_last]

/-- Witness for C7: an up key then a down key in one tick while moving
right (both qualify; the down key wins). -/
theorem last_qualifying_key_wins_witness :
    ∃ s', handle_keys resetState [Event.keydown Key.up, Event.keydown Key.down] = some s' ∧
      s'.direction = resetState.direction ∧
      s'.next_direction =
        lastWins resetState.next_direction
          ([Event.keydown Key.up, Event.keydown Key.down].filterMap
            (qualifies resetState.direction)) ∧
      (∀ qs d, [Event.keydown Key.up, Event.keydown Key.down].filterMap
          (qualifies resetState.direction) = qs ++ [d] →
        s'.next_direction = some d) :=
  last_qualifying_key_wins resetState [Event.keydown Key.up, Event.keydown Key.down]
    (by decide)

/-- Claim C8 (code bug exhibit): for the length-2 snake `c8State`, the
tail cell (6, 5) is in the body but `Snake.draw` emits no body-cell draw
request for it during the frame, because the loop draws `positions[:-1]`
and the separately drawn head is `positions[0]`, so after the full
background clear the tail cell is left undrawn. -/
theorem draw_misses_tail_cell :
    (6 * GRID_SIZE, 5 * GRID_SIZE) ∈ c8State.positions ∧
    DrawReq.rect (6 * GRID_SIZE, 5 * GRID_SIZE) SNAKE_COLOR ∉
      renderFrame c8State (10 * GRID_SIZE, 10 * GRID_SIZE) := by
  decide

/-- Claim C9: in every reachable game state, every body position and the
food position are pixel coordinates aligned to the grid: both coordinates
are multiples of GRID_SIZE and lie inside the screen rectangle. -/
theorem reachable_grid_aligned (s : SnakeState) (a : Position)
    (hr : Reachable (s, a)) :
    (∀ p ∈ s.positions, Aligned p) ∧ Aligned a :=
  ⟨(reachable_inv hr).aligned, (reachable_inv hr).apple⟩

/-- Witness for C9 at the initial reachable state. -/
theorem reachable_grid_aligned_witness :
    (∀ p ∈ resetState.positions, Aligned p) ∧ Aligned ((0 : Int), (0 : Int)) :=
  reachable_grid_aligned resetState (0, 0) reachable_init_zero

/-- Claim C10: across a single tick's commit the committed direction
never flips to its exact opposite: from any reachable state (where the
pending slot was consumed by the previous tick), after input handling and
`update_direction` the new direction is not the 180-degree reverse of the
old one, and the pending slot is consumed again. -/
theorem commit_never_reverses (s s1 : SnakeState) (a : Position)
    (events : List Event)
    (hr : Reachable (s, a))
    (hk : handle_keys s events = some s1) :
    (update_direction s1).direction ≠ opposite s.direction ∧
    (update_direction s1).next_direction = none := by
  have inv := reachable_inv hr
  obtain ⟨_, e2, _, _, e5⟩ := handle_keys_some hk
  refine ⟨?_, update_direction_next s1⟩
  rcases update_direction_dir_cases s1 with hd | hd
  · rw [hd, e2]
    rcases inv.dir with h | h | h | h <;> rw [h] <;> decide
  · rw [e5, inv.pending] at hd
    rcases lastWins_some hd with hP | hP
    · exact absurd hP (by simp)
    · obtain ⟨e, _, hqe⟩ := List.mem_filterMap.1 hP
      have hq2 := (qualifies_some hqe).2
      intro hcon
      apply hq2
      rw [hcon]
      simp [opposite]

/-- Witness for C10: a quiet tick at the initial reachable state. -/
theorem commit_never_reverses_witness :
    (update_direction resetState).direction ≠ opposite resetState.direction ∧
    (update_direction resetState).next_direction = none :=
  commit_never_reverses resetState resetState (0, 0) []
    reachable_init_zero (by decide)
